import Mathlib

/-!
Verification of the reservation store of the tennis-court scheduling app
(`src/app.py`).  The store persists reservations in a single SQLite table
with a uniqueness constraint on `(date, time_slot)`; we embed the table as
a list of rows plus the autoincrement counter, and the four data operations
(`get_reservations`, `get_all_reservations_in_range`, `create_reservation`,
`cancel_reservation`) as pure state-passing functions.  The SHA-256 digest
function (`hash_password`) is external library code; we keep it as an
explicit function parameter `hash : String → String`, using no property of
it beyond determinism.  Python dictionaries are embedded as association
lists with insert-or-replace update, matching insertion-order semantics.
-/

set_option autoImplicit false

namespace TennisApp

/-- One row of the `reservations` table (schema from `init_db`):
`id INTEGER PRIMARY KEY AUTOINCREMENT`, `date TEXT`, `time_slot TEXT`,
`player_name TEXT`, `phone TEXT`, `password_hash TEXT` (nullable),
`created_at TEXT`. -/
structure Reservation where
  id : Nat
  date : String
  time_slot : String
  player_name : String
  phone : String
  password_hash : Option String
  created_at : String
deriving Repr, DecidableEq

/-- The database state: the rows of the `reservations` table in rowid
(insertion) order, plus the next autoincrement id. -/
structure DB where
  rows : List Reservation
  nextId : Nat
deriving Repr, DecidableEq

/-- `init_db` creates the table if absent; a fresh database is empty. -/
def init_db : DB := ⟨[], 1⟩

/-- Python-dict embedding: lookup of the first (unique) entry with the key. -/
def dget {α : Type} : List (String × α) → String → Option α
  | [], _ => none
  | p :: rest, k => if p.1 = k then some p.2 else dget rest k

/-- Python-dict embedding: `m[k] = v` replaces the value in place when the
key is present and appends the entry otherwise. -/
def dset {α : Type} : List (String × α) → String → α → List (String × α)
  | [], k, v => [(k, v)]
  | p :: rest, k, v => if p.1 = k then (k, v) :: rest else p :: dset rest k v

/-- The row predicate of the uniqueness constraint and of the `WHERE
date = ? AND time_slot = ?` clauses. -/
def matches_slot (d t : String) (r : Reservation) : Bool :=
  decide (r.date = d ∧ r.time_slot = t)

/-- Whether some row already occupies the `(date, time_slot)` pair. -/
def occupied (db : DB) (d t : String) : Bool :=
  db.rows.any (matches_slot d t)

/-- Messages returned by `create_reservation` / `cancel_reservation`;
the `SlotTaken`, `NotFound`, `PasswordRequired`, `PasswordMismatch`
outcomes of the spec are identified by these strings. -/
def createdMsg : String := "Reservation created successfully!"

def slotTakenMsg : String := "This time slot is already booked."

def notFoundMsg : String := "No reservation found for this time slot."

def pwRequiredMsg : String :=
  "This reservation is password protected. Please enter the password."

def pwMismatchMsg : String := "Incorrect password."

def cancelledMsg : String := "Reservation cancelled successfully!"

/-- `get_reservations(date)`: rows of the date, as a dict keyed by
`time_slot` (built in row order, later rows overriding). -/
def get_reservations (db : DB) (date : String) : List (String × Reservation) :=
  (db.rows.filter (fun r => decide (r.date = date))).foldl
    (fun m r => dset m r.time_slot r) []

/-- One step of the grouping loop of `get_all_reservations_in_range`:
`result.setdefault(date, {})[time_slot] = row`. -/
def addRow (acc : List (String × List (String × Reservation))) (r : Reservation) :
    List (String × List (String × Reservation)) :=
  dset acc r.date (dset ((dget acc r.date).getD []) r.time_slot r)

/-- `get_all_reservations_in_range(start, end)`: rows with
`date >= start AND date <= end`, grouped into a dict of dicts. -/
def get_all_reservations_in_range (db : DB) (start_date end_date : String) :
    List (String × List (String × Reservation)) :=
  (db.rows.filter (fun r => decide (start_date ≤ r.date) && decide (r.date ≤ end_date))).foldl
    addRow []

/-- `create_reservation`: inserts one row, the uniqueness constraint on
`(date, time_slot)` firing `IntegrityError` exactly when the pair is
occupied.  `password_hash` is the digest when `password` is non-empty and
NULL otherwise.  Returns the new state with `(success, message)`. -/
def create_reservation (hash : String → String) (db : DB)
    (date time_slot player_name phone password now : String) :
    DB × Bool × String :=
  let password_hash := if password = "" then none else some (hash password)
  if occupied db date time_slot then
    (db, false, slotTakenMsg)
  else
    (⟨db.rows ++ [⟨db.nextId, date, time_slot, player_name, phone, password_hash, now⟩],
      db.nextId + 1⟩, true, createdMsg)

/-- `cancel_reservation`: looks up the first row for the pair; `NotFound`
when absent; when the stored `password_hash` is truthy (non-NULL and
non-empty, Python truthiness) an empty supplied password gives
`PasswordRequired` and a digest mismatch gives `PasswordMismatch`;
otherwise the `DELETE ... WHERE date = ? AND time_slot = ?` removes the
matching rows. -/
def cancel_reservation (hash : String → String) (db : DB)
    (date time_slot password : String) : DB × Bool × String :=
  match db.rows.find? (matches_slot date time_slot) with
  | none => (db, false, notFoundMsg)
  | some row =>
    let deleted : DB := ⟨db.rows.filter (fun r => !matches_slot date time_slot r), db.nextId⟩
    match row.password_hash with
    | none => (deleted, true, cancelledMsg)
    | some ph =>
      if ph = "" then (deleted, true, cancelledMsg)
      else if password = "" then (db, false, pwRequiredMsg)
      else if hash password ≠ ph then (db, false, pwMismatchMsg)
      else (deleted, true, cancelledMsg)

end TennisApp

namespace TennisApp

/-! ### Association-list (Python dict) lemmas -/

theorem dget_dset_self {α : Type} (m : List (String × α)) (k : String) (v : α) :
    dget (dset m k v) k = some v := by
  induction m with
  | nil => simp [dset, dget]
  | cons p rest ih =>
    by_cases h : p.1 = k <;> simp [dset, dget, h, ih]

theorem dget_dset_ne {α : Type} (m : List (String × α)) (k k2 : String) (v : α)
    (h : k2 ≠ k) : dget (dset m k v) k2 = dget m k2 := by
  induction m with
  | nil => simp [dset, dget, Ne.symm h]
  | cons p rest ih =>
    by_cases hp : p.1 = k
    · simp [dset, hp, dget, Ne.symm h]
    · simp [dset, hp, dget, ih]

/-! ### Shape lemmas for the operations -/

theorem occupied_iff (db : DB) (d t : String) :
    occupied db d t = true ↔ ∃ r ∈ db.rows, r.date = d ∧ r.time_slot = t := by
  simp [occupied, matches_slot, List.any_eq_true]

/-- The row inserted by a successful `create_reservation`. -/
def newRow (hash : String → String) (db : DB)
    (date time_slot player_name phone password now : String) : Reservation :=
  ⟨db.nextId, date, time_slot, player_name, phone,
    if password = "" then none else some (hash password), now⟩

theorem create_of_free (hash : String → String) (db : DB)
    (d t n p pw now : String) (h : occupied db d t = false) :
    create_reservation hash db d t n p pw now =
      (⟨db.rows ++ [newRow hash db d t n p pw now], db.nextId + 1⟩, true, createdMsg) := by
  simp [create_reservation, h, newRow]

theorem create_of_occupied (hash : String → String) (db : DB)
    (d t n p pw now : String) (h : occupied db d t = true) :
    create_reservation hash db d t n p pw now = (db, false, slotTakenMsg) := by
  simp [create_reservation, h]

/-- Every run of `cancel_reservation` either succeeds and leaves exactly the
rows not matching the pair, or fails and leaves the state unchanged. -/
theorem cancel_cases (hash : String → String) (db : DB) (d t pw : String) :
    ((cancel_reservation hash db d t pw).2.1 = true ∧
      (cancel_reservation hash db d t pw).1 =
        ⟨db.rows.filter (fun r => !matches_slot d t r), db.nextId⟩) ∨
    ((cancel_reservation hash db d t pw).2.1 = false ∧
      (cancel_reservation hash db d t pw).1 = db) := by
  unfold cancel_reservation
  cases hf : db.rows.find? (matches_slot d t) with
  | none => right; simp
  | some row =>
    cases hph : row.password_hash with
    | none => left; simp [hph]
    | some ph =>
      by_cases h1 : ph = ""
      · left; simp [hph, h1]
      · by_cases h2 : pw = ""
        · right; simp [hph, h1, h2]
        · by_cases h3 : hash pw = ph
          · left; simp [hph, h1, h2, h3]
          · right; simp [hph, h1, h2, h3]

theorem cancel_success_rows (hash : String → String) (db : DB) (d t pw : String)
    (h : (cancel_reservation hash db d t pw).2.1 = true) :
    (cancel_reservation hash db d t pw).1.rows =
      db.rows.filter (fun r => !matches_slot d t r) := by
  rcases cancel_cases hash db d t pw with ⟨_, h2⟩ | ⟨h1, _⟩
  · rw [h2]
  · rw [h] at h1; cases h1

/-- A fixed digest function for concrete witnesses: injective enough and
never returns the empty string, like a hex SHA-256 digest. -/
def demoHash (s : String) : String := String.append "#" s

/-! ### C1 -/

/-- C1: `create(date, time_slot, ...)` fails with `SlotTaken` exactly when a
reservation already exists for that `(date, time_slot)` pair, whatever the
player name, phone and password are; otherwise it succeeds and appends
exactly one new row for that pair. -/
theorem create_slotTaken_iff_occupied (hash : String → String) (db : DB)
    (d t n p pw now : String) :
    (((create_reservation hash db d t n p pw now).2.1 = false ∧
        (create_reservation hash db d t n p pw now).2.2 = slotTakenMsg) ↔
      ∃ r ∈ db.rows, r.date = d ∧ r.time_slot = t) ∧
    ((∀ r ∈ db.rows, ¬(r.date = d ∧ r.time_slot = t)) →
      (create_reservation hash db d t n p pw now).2.1 = true ∧
      ∃ row, (create_reservation hash db d t n p pw now).1.rows = db.rows ++ [row] ∧
        row.date = d ∧ row.time_slot = t) := by
  by_cases hocc : occupied db d t
  · rw [create_of_occupied hash db d t n p pw now hocc]
    refine ⟨⟨fun _ => (occupied_iff db d t).mp hocc, fun _ => ⟨rfl, rfl⟩⟩, fun hall => ?_⟩
    rcases (occupied_iff db d t).mp hocc with ⟨r, hr, hmatch⟩
    exact absurd hmatch (hall r hr)
  · rw [create_of_free hash db d t n p pw now (by simpa using hocc)]
    refine ⟨⟨fun h => absurd h.1 (by simp), fun hex => ?_⟩,
      fun _ => ⟨rfl, newRow hash db d t n p pw now, rfl, rfl, rfl⟩⟩
    exact absurd ((occupied_iff db d t).mpr hex) hocc

/-- Closed instance of C1: creating in the empty store succeeds. -/
theorem create_slotTaken_iff_occupied_witness :
    (create_reservation demoHash init_db "2024-06-10" "09:00" "Alice" "" "" "T0").2.1 = true := by
  have h := (create_slotTaken_iff_occupied demoHash init_db
    "2024-06-10" "09:00" "Alice" "" "" "T0").2
  exact (h (by simp [init_db])).1

/-! ### C3 -/

/-- C3: cancelling a pair with no stored reservation fails with `NotFound`
for any password, and a second cancel right after a successful one also
returns `NotFound`. -/
theorem cancel_notFound_of_absent (hash : String → String) (db : DB)
    (d t pw : String) :
    ((∀ r ∈ db.rows, ¬(r.date = d ∧ r.time_slot = t)) →
      cancel_reservation hash db d t pw = (db, false, notFoundMsg)) ∧
    (∀ pw2, (cancel_reservation hash db d t pw).2.1 = true →
      cancel_reservation hash (cancel_reservation hash db d t pw).1 d t pw2 =
        ((cancel_reservation hash db d t pw).1, false, notFoundMsg)) := by
  have habsent : ∀ db2 : DB, (∀ r ∈ db2.rows, ¬(r.date = d ∧ r.time_slot = t)) →
      cancel_reservation hash db2 d t pw = (db2, false, notFoundMsg) ∧
      ∀ pw3 : String, cancel_reservation hash db2 d t pw3 = (db2, false, notFoundMsg) := by
    intro db2 hall
    have hf : db2.rows.find? (matches_slot d t) = none := by
      rw [List.find?_eq_none]
      intro r hr
      simpa [matches_slot] using hall r hr
    constructor
    · unfold cancel_reservation; rw [hf]
    · intro pw3; unfold cancel_reservation; rw [hf]
  refine ⟨fun hall => (habsent db hall).1, fun pw2 hsucc => ?_⟩
  have hrows := cancel_success_rows hash db d t pw hsucc
  have hall2 : ∀ r ∈ (cancel_reservation hash db d t pw).1.rows,
      ¬(r.date = d ∧ r.time_slot = t) := by
    intro r hr
    rw [hrows] at hr
    have h4 := List.of_mem_filter hr
    simp [matches_slot] at h4
    intro hmatch
    rcases h4 with h4 | h4
    · exact h4 hmatch.1
    · exact h4 hmatch.2
  exact ((habsent _ hall2).2) pw2

/-- Closed instance of C3: a cancel on the empty store returns `NotFound`,
and a second cancel after a successful one returns `NotFound`. -/
theorem cancel_notFound_of_absent_witness :
    cancel_reservation demoHash init_db "2024-06-10" "09:00" "" =
      (init_db, false, notFoundMsg) := by
  exact (cancel_notFound_of_absent demoHash init_db "2024-06-10" "09:00" "").1
    (by simp [init_db])

/-! ### C10 -/

/-- C10: whenever `create_reservation` or `cancel_reservation` returns a
failure outcome, the table is exactly as before the call: a failed create
inserts no row and a failed cancel deletes no row. -/
theorem failed_op_leaves_db_unchanged (hash : String → String) (db : DB)
    (d t n p pw now pw2 : String) :
    ((create_reservation hash db d t n p pw now).2.1 = false →
      (create_reservation hash db d t n p pw now).1 = db) ∧
    ((cancel_reservation hash db d t pw2).2.1 = false →
      (cancel_reservation hash db d t pw2).1 = db) := by
  constructor
  · intro h
    by_cases hocc : occupied db d t
    · rw [create_of_occupied hash db d t n p pw now hocc]
    · rw [create_of_free hash db d t n p pw now (by simpa using hocc)] at h
      cases h
  · intro h
    rcases cancel_cases hash db d t pw2 with ⟨h1, _⟩ | ⟨_, h2⟩
    · rw [h] at h1; cases h1
    · exact h2

/-- Closed instance of C10: a create colliding with an existing booking and
a password-protected cancel with no password both leave the store unchanged. -/
theorem failed_op_leaves_db_unchanged_witness :
    (cancel_reservation demoHash
        (create_reservation demoHash init_db "2024-06-10" "09:00" "Alice" "" "pw" "T0").1
        "2024-06-10" "09:00" "").1 =
      (create_reservation demoHash init_db "2024-06-10" "09:00" "Alice" "" "pw" "T0").1 := by
  exact (failed_op_leaves_db_unchanged demoHash
    (create_reservation demoHash init_db "2024-06-10" "09:00" "Alice" "" "pw" "T0").1
    "2024-06-10" "09:00" "x" "y" "z" "T1" "").2 (by decide)


/-! ### C4 -/

/-- No two distinct live rows share a `(date, time_slot)` pair. -/
def UniquePairs (db : DB) : Prop :=
  db.rows.Pairwise (fun a b => ¬(a.date = b.date ∧ a.time_slot = b.time_slot))

/-- States reachable from a fresh database through the mutating store
operations; the two list queries return values without changing state. -/
inductive Reachable (hash : String → String) : DB → Prop
  | init : Reachable hash init_db
  | create (db : DB) (d t n p pw now : String) : Reachable hash db →
      Reachable hash (create_reservation hash db d t n p pw now).1
  | cancel (db : DB) (d t pw : String) : Reachable hash db →
      Reachable hash (cancel_reservation hash db d t pw).1

theorem uniquePairs_create (hash : String → String) (db : DB)
    (d t n p pw now : String) (h : UniquePairs db) :
    UniquePairs (create_reservation hash db d t n p pw now).1 := by
  by_cases hocc : occupied db d t
  · rw [create_of_occupied hash db d t n p pw now hocc]; exact h
  · rw [create_of_free hash db d t n p pw now (by simpa using hocc)]
    show (db.rows ++ [newRow hash db d t n p pw now]).Pairwise _
    rw [List.pairwise_append]
    refine ⟨h, List.pairwise_singleton _ _, ?_⟩
    intro a ha b hb
    simp only [List.mem_singleton] at hb
    subst hb
    intro hmatch
    have hmatch2 : a.date = d ∧ a.time_slot = t := by simpa [newRow] using hmatch
    exact hocc ((occupied_iff db d t).mpr ⟨a, ha, hmatch2⟩)

theorem uniquePairs_cancel (hash : String → String) (db : DB)
    (d t pw : String) (h : UniquePairs db) :
    UniquePairs (cancel_reservation hash db d t pw).1 := by
  rcases cancel_cases hash db d t pw with ⟨_, h2⟩ | ⟨_, h2⟩ <;> rw [h2]
  · exact List.Pairwise.sublist (List.filter_sublist _) h
  · exact h

/-- C4: every state reachable from a fresh database through the store
operations has at most one live reservation per `(date, time_slot)` pair;
`init_db` satisfies the invariant and `create_reservation` and
`cancel_reservation` preserve it (the list queries do not change state). -/
theorem reachable_uniquePairs (hash : String → String) (db : DB)
    (h : Reachable hash db) : UniquePairs db := by
  induction h with
  | init => simp [UniquePairs, init_db]
  | create db d t n p pw now _ ih => exact uniquePairs_create hash db d t n p pw now ih
  | cancel db d t pw _ ih => exact uniquePairs_cancel hash db d t pw ih

/-- Closed instance of C4 at a state reached by one booking. -/
theorem reachable_uniquePairs_witness :
    UniquePairs (create_reservation demoHash init_db
      "2024-06-10" "09:00" "Alice" "" "" "T0").1 :=
  reachable_uniquePairs demoHash _
    (Reachable.create init_db "2024-06-10" "09:00" "Alice" "" "" "T0" Reachable.init)

/-! ### C2 -/

/-- C2: on a stored reservation whose digest came from the non-empty
original booking password, cancel with no password fails with
`PasswordRequired`, cancel with a password of a different digest fails
with `PasswordMismatch`, and cancel with the exact original password
succeeds and deletes the row.  (`hne` records that a real digest is never
the empty string.) -/
theorem cancel_password_protected (hash : String → String) (db : DB)
    (d t orig : String) (row : Reservation)
    (hfind : db.rows.find? (matches_slot d t) = some row)
    (hph : row.password_hash = some (hash orig))
    (horig : orig ≠ "") (hne : hash orig ≠ "") :
    cancel_reservation hash db d t "" = (db, false, pwRequiredMsg) ∧
    (∀ pw, pw ≠ "" → hash pw ≠ hash orig →
      cancel_reservation hash db d t pw = (db, false, pwMismatchMsg)) ∧
    ((cancel_reservation hash db d t orig).2.1 = true ∧
      (cancel_reservation hash db d t orig).1.rows =
        db.rows.filter (fun r => !matches_slot d t r)) := by
  refine ⟨?_, ?_, ?_⟩
  · simp [cancel_reservation, hfind, hph, hne]
  · intro pw hpw hh
    simp [cancel_reservation, hfind, hph, hne, hpw, hh]
  · constructor <;> simp [cancel_reservation, hfind, hph, hne, horig]

/-- The store after booking the demo slot with password `"secret"`. -/
def dbProtected : DB :=
  (create_reservation demoHash init_db "2024-06-10" "09:00" "Alice" "787" "secret" "T0").1

/-- Closed instance of C2 on `dbProtected`: no password gives
`PasswordRequired`, a wrong password gives `PasswordMismatch`, the
original password cancels. -/
theorem cancel_password_protected_witness :
    (cancel_reservation demoHash dbProtected "2024-06-10" "09:00" "").2.2 = pwRequiredMsg ∧
    (cancel_reservation demoHash dbProtected "2024-06-10" "09:00" "wrong").2.2 = pwMismatchMsg ∧
    (cancel_reservation demoHash dbProtected "2024-06-10" "09:00" "secret").2.1 = true := by
  have h := cancel_password_protected demoHash dbProtected "2024-06-10" "09:00" "secret"
    ⟨1, "2024-06-10", "09:00", "Alice", "787", some (demoHash "secret"), "T0"⟩
    (by decide) rfl (by decide) (by decide)
  exact ⟨by rw [h.1], by rw [h.2.1 "wrong" (by decide) (by decide)], h.2.2.1⟩

theorem cancel_of_unprotected (hash : String → String) (db : DB)
    (d t pw : String) (row : Reservation)
    (hfind : db.rows.find? (matches_slot d t) = some row)
    (hph : row.password_hash = none) :
    cancel_reservation hash db d t pw =
      (⟨db.rows.filter (fun r => !matches_slot d t r), db.nextId⟩, true, cancelledMsg) := by
  simp [cancel_reservation, hfind, hph]

/-! ### C8 -/

/-- C8: a booking made with an empty password stores no digest (the
inserted row has a NULL `password_hash`), and a subsequent cancel of that
pair succeeds for any supplied password, including none. -/
theorem create_empty_password_unprotected (hash : String → String) (db : DB)
    (d t n p now : String) (hfree : occupied db d t = false) :
    (create_reservation hash db d t n p "" now).1.rows =
      db.rows ++ [⟨db.nextId, d, t, n, p, none, now⟩] ∧
    ∀ pw2, (cancel_reservation hash
      (create_reservation hash db d t n p "" now).1 d t pw2).2.1 = true := by
  have hrow : newRow hash db d t n p "" now = ⟨db.nextId, d, t, n, p, none, now⟩ := by
    simp [newRow]
  rw [create_of_free hash db d t n p "" now hfree]
  refine ⟨by rw [hrow], fun pw2 => ?_⟩
  have hnone : db.rows.find? (matches_slot d t) = none := by
    rw [List.find?_eq_none]
    intro r hr hmatch
    exact absurd (occupied_iff db d t |>.mpr ⟨r, hr, by simpa [matches_slot] using hmatch⟩)
      (by simp [hfree])
  have hfind : (db.rows ++ [newRow hash db d t n p "" now]).find? (matches_slot d t) =
      some (newRow hash db d t n p "" now) := by
    rw [List.find?_append, hnone]
    simp [matches_slot, newRow]
  show (cancel_reservation hash
      ⟨db.rows ++ [newRow hash db d t n p "" now], db.nextId + 1⟩ d t pw2).2.1 = true
  rw [cancel_of_unprotected hash ⟨db.rows ++ [newRow hash db d t n p "" now], db.nextId + 1⟩
    d t pw2 (newRow hash db d t n p "" now) hfind (by simp [newRow])]

/-- Closed instance of C8: book without a password, cancel with an
arbitrary password. -/
theorem create_empty_password_unprotected_witness :
    (cancel_reservation demoHash
      (create_reservation demoHash init_db "2024-06-10" "09:00" "Alice" "" "" "T0").1
      "2024-06-10" "09:00" "whatever").2.1 = true :=
  (create_empty_password_unprotected demoHash init_db
    "2024-06-10" "09:00" "Alice" "" "T0" (by decide)).2 "whatever"


/-! ### Lemmas about the dict-building folds -/

/-- Lookup of a date, then a time slot, in a grouped range result. -/
def lookup2 (acc : List (String × List (String × Reservation))) (dd t : String) :
    Option Reservation :=
  (dget acc dd).bind (fun m => dget m t)

theorem dget_foldl_dset_last (l : List Reservation)
    (m : List (String × Reservation)) (r : Reservation) :
    dget ((l ++ [r]).foldl (fun m2 r2 => dset m2 r2.time_slot r2) m) r.time_slot = some r := by
  rw [List.foldl_append]
  exact dget_dset_self _ _ _

theorem dget_foldl_dset_not_mem (l : List Reservation)
    (m : List (String × Reservation)) (t : String)
    (h : ∀ r ∈ l, r.time_slot ≠ t) :
    dget (l.foldl (fun m2 r2 => dset m2 r2.time_slot r2) m) t = dget m t := by
  induction l generalizing m with
  | nil => rfl
  | cons r rest ih =>
    show dget (rest.foldl _ (dset m r.time_slot r)) t = dget m t
    rw [ih _ (fun x hx => h x (List.mem_cons_of_mem _ hx)),
      dget_dset_ne _ _ _ _ (Ne.symm (h r (List.mem_cons_self _ _)))]

theorem lookup2_addRow (acc : List (String × List (String × Reservation)))
    (r : Reservation) (dd t : String) :
    lookup2 (addRow acc r) dd t =
      if r.date = dd ∧ r.time_slot = t then some r else lookup2 acc dd t := by
  unfold addRow lookup2
  by_cases hd : r.date = dd
  · subst hd
    rw [dget_dset_self]
    by_cases ht : r.time_slot = t
    · subst ht
      simp [dget_dset_self]
    · cases hacc : dget acc r.date <;>
        simp [hacc, dget_dset_ne _ _ _ _ (Ne.symm ht), ht, dget]
  · rw [dget_dset_ne _ _ _ _ (Ne.symm hd)]
    simp [hd]

/-- The last row of `l` matching the pair, if any: the one whose entry
survives in the grouped dict. -/
def lastMatch (dd t : String) : List Reservation → Option Reservation
  | [] => none
  | r :: rest =>
    match lastMatch dd t rest with
    | some x => some x
    | none => if r.date = dd ∧ r.time_slot = t then some r else none

theorem lookup2_foldl_addRow (l : List Reservation)
    (acc : List (String × List (String × Reservation))) (dd t : String) :
    lookup2 (l.foldl addRow acc) dd t =
      match lastMatch dd t l with
      | some x => some x
      | none => lookup2 acc dd t := by
  induction l generalizing acc with
  | nil => simp [lastMatch]
  | cons r rest ih =>
    show lookup2 (rest.foldl addRow (addRow acc r)) dd t = _
    rw [ih]
    cases hlm : lastMatch dd t rest with
    | some x => simp [lastMatch, hlm]
    | none =>
      rw [lookup2_addRow]
      by_cases hc : r.date = dd ∧ r.time_slot = t <;> simp [lastMatch, hlm, hc]

theorem lastMatch_eq_none (dd t : String) (l : List Reservation)
    (h : ∀ r ∈ l, ¬(r.date = dd ∧ r.time_slot = t)) : lastMatch dd t l = none := by
  induction l with
  | nil => rfl
  | cons r rest ih =>
    simp [lastMatch, ih (fun x hx => h x (List.mem_cons_of_mem _ hx)),
      h r (List.mem_cons_self _ _)]

/-! ### C5 -/

/-- C5: booking a free `(date, time_slot)` succeeds, and afterwards
`get_reservations(date)` maps the slot to a row carrying the submitted
player name, and `get_all_reservations_in_range(d1, d2)` does the same for
any range with `d1 ≤ date ≤ d2`. -/
theorem create_then_listed (hash : String → String) (db : DB)
    (d t n p pw now d1 d2 : String) (hfree : occupied db d t = false)
    (h1 : d1 ≤ d) (h2 : d ≤ d2) :
    (create_reservation hash db d t n p pw now).2.1 = true ∧
    ∃ row,
      dget (get_reservations (create_reservation hash db d t n p pw now).1 d) t = some row ∧
      row.player_name = n ∧
      lookup2 (get_all_reservations_in_range
        (create_reservation hash db d t n p pw now).1 d1 d2) d t = some row := by
  rw [create_of_free hash db d t n p pw now hfree]
  refine ⟨rfl, newRow hash db d t n p pw now, ?_, rfl, ?_⟩
  · show dget (get_reservations ⟨db.rows ++ [newRow hash db d t n p pw now], db.nextId + 1⟩ d) t
      = some (newRow hash db d t n p pw now)
    unfold get_reservations
    rw [show DB.rows ⟨db.rows ++ [newRow hash db d t n p pw now], db.nextId + 1⟩
      = db.rows ++ [newRow hash db d t n p pw now] from rfl]
    rw [List.filter_append]
    rw [show List.filter (fun r => decide (r.date = d)) [newRow hash db d t n p pw now]
      = [newRow hash db d t n p pw now] by simp [newRow]]
    exact dget_foldl_dset_last _ _ _
  · show lookup2 (get_all_reservations_in_range
      ⟨db.rows ++ [newRow hash db d t n p pw now], db.nextId + 1⟩ d1 d2) d t
      = some (newRow hash db d t n p pw now)
    unfold get_all_reservations_in_range
    rw [show DB.rows ⟨db.rows ++ [newRow hash db d t n p pw now], db.nextId + 1⟩
      = db.rows ++ [newRow hash db d t n p pw now] from rfl]
    rw [List.filter_append]
    rw [show List.filter (fun r => decide (d1 ≤ r.date) && decide (r.date ≤ d2))
        [newRow hash db d t n p pw now] = [newRow hash db d t n p pw now] by
      simp [newRow]
      exact ⟨String.le_iff_toList_le.mp h1, String.le_iff_toList_le.mp h2⟩]
    rw [List.foldl_append]
    show lookup2 (addRow _ (newRow hash db d t n p pw now)) d t = _
    rw [lookup2_addRow]
    simp [newRow]

/-- Closed instance of C5: a booking in the empty store shows up in both
listings with the submitted name. -/
theorem create_then_listed_witness :
    (create_reservation demoHash init_db "2024-06-10" "09:00" "Alice" "" "" "T0").2.1 = true := by
  exact (create_then_listed demoHash init_db "2024-06-10" "09:00" "Alice" "" "" "T0"
    "2024-06-08" "2024-06-14" (by decide)
    (String.le_iff_toList_le.mpr (by decide))
    (String.le_iff_toList_le.mpr (by decide))).1

/-! ### C6 -/

/-- C6: after a successful cancel of a pair, the slot is gone from both
`get_reservations` and `get_all_reservations_in_range`, and a new create
for the same pair succeeds for any caller. -/
theorem cancel_then_absent_and_rebookable (hash : String → String) (db : DB)
    (d t pw : String) (hsucc : (cancel_reservation hash db d t pw).2.1 = true) :
    dget (get_reservations (cancel_reservation hash db d t pw).1 d) t = none ∧
    (∀ d1 d2, lookup2 (get_all_reservations_in_range
      (cancel_reservation hash db d t pw).1 d1 d2) d t = none) ∧
    (∀ n p pw2 now, (create_reservation hash
      (cancel_reservation hash db d t pw).1 d t n p pw2 now).2.1 = true) := by
  have hrows := cancel_success_rows hash db d t pw hsucc
  have hnomatch : ∀ r ∈ (cancel_reservation hash db d t pw).1.rows,
      ¬(r.date = d ∧ r.time_slot = t) := by
    intro r hr
    rw [hrows] at hr
    have h4 := List.of_mem_filter hr
    simp [matches_slot] at h4
    intro hmatch
    rcases h4 with h4 | h4
    · exact h4 hmatch.1
    · exact h4 hmatch.2
  refine ⟨?_, ?_, ?_⟩
  · unfold get_reservations
    rw [dget_foldl_dset_not_mem]
    · rfl
    · intro r hr
      have hfil := List.mem_filter.mp hr
      intro ht
      exact hnomatch r hfil.1 ⟨by simpa using hfil.2, ht⟩
  · intro d1 d2
    unfold get_all_reservations_in_range
    rw [lookup2_foldl_addRow, lastMatch_eq_none]
    · rfl
    · intro r hr
      exact hnomatch r (List.mem_filter.mp hr).1
  · intro n p pw2 now
    have hfree : occupied (cancel_reservation hash db d t pw).1 d t = false := by
      by_contra hocc
      rw [Bool.not_eq_false] at hocc
      rcases (occupied_iff _ d t).mp hocc with ⟨r, hr, hm⟩
      exact hnomatch r hr hm
    rw [create_of_free _ _ _ _ _ _ _ _ hfree]

/-- Closed instance of C6: cancel the demo booking, then re-book it. -/
theorem cancel_then_absent_and_rebookable_witness :
    (create_reservation demoHash
      (cancel_reservation demoHash
        (create_reservation demoHash init_db "2024-06-10" "09:00" "Alice" "" "" "T0").1
        "2024-06-10" "09:00" "").1
      "2024-06-10" "09:00" "Bob" "" "" "T1").2.1 = true := by
  exact (cancel_then_absent_and_rebookable demoHash
    (create_reservation demoHash init_db "2024-06-10" "09:00" "Alice" "" "" "T0").1
    "2024-06-10" "09:00" "" (by decide)).2.2 "Bob" "" "" "T1"


/-! ### C7 -/

theorem dget_addRow_self (acc : List (String × List (String × Reservation)))
    (r : Reservation) :
    dget (addRow acc r) r.date =
      some (dset ((dget acc r.date).getD []) r.time_slot r) :=
  dget_dset_self _ _ _

theorem dget_addRow_ne (acc : List (String × List (String × Reservation)))
    (r : Reservation) (dd : String) (h : r.date ≠ dd) :
    dget (addRow acc r) dd = dget acc dd :=
  dget_dset_ne _ _ _ _ (Ne.symm h)

theorem dget_foldl_addRow_none_iff (l : List Reservation)
    (acc : List (String × List (String × Reservation))) (dd : String) :
    dget (l.foldl addRow acc) dd = none ↔
      (∀ r ∈ l, r.date ≠ dd) ∧ dget acc dd = none := by
  induction l generalizing acc with
  | nil => simp
  | cons r rest ih =>
    show dget (rest.foldl addRow (addRow acc r)) dd = none ↔ _
    rw [ih]
    by_cases hd : r.date = dd
    · subst hd
      rw [dget_addRow_self]
      simp [List.forall_mem_cons]
    · rw [dget_addRow_ne acc r dd hd]
      simp [List.forall_mem_cons, hd]

theorem lastMatch_eq_reverse_find (dd t : String) (l : List Reservation) :
    lastMatch dd t l = l.reverse.find? (matches_slot dd t) := by
  induction l with
  | nil => rfl
  | cons x rest ih =>
    show (match lastMatch dd t rest with
      | some y => some y
      | none => if x.date = dd ∧ x.time_slot = t then some x else none) = _
    rw [List.reverse_cons, List.find?_append, ← ih]
    cases lastMatch dd t rest with
    | none =>
      by_cases h1 : x.date = dd
      · by_cases h2 : x.time_slot = t
        · simp [List.find?, matches_slot, h1, h2]
        · simp [List.find?, matches_slot, h1, h2]
      · simp [List.find?, matches_slot, h1]
    | some y => simp

theorem lastMatch_mem (dd t : String) (l : List Reservation) (r : Reservation)
    (h : lastMatch dd t l = some r) :
    r ∈ l ∧ r.date = dd ∧ r.time_slot = t := by
  rw [lastMatch_eq_reverse_find] at h
  have hm := List.mem_reverse.mp (List.mem_of_find?_eq_some h)
  have hp := List.find?_some h
  simp [matches_slot] at hp
  exact ⟨hm, hp⟩

theorem lastMatch_of_mem (dd t : String) (l : List Reservation) (r : Reservation)
    (hmem : r ∈ l) (hr : r.date = dd ∧ r.time_slot = t)
    (huniq : l.Pairwise (fun a b => ¬(a.date = b.date ∧ a.time_slot = b.time_slot))) :
    lastMatch dd t l = some r := by
  rw [lastMatch_eq_reverse_find]
  cases hf : l.reverse.find? (matches_slot dd t) with
  | none =>
    rw [List.find?_eq_none] at hf
    exact absurd (show matches_slot dd t r = true by simp [matches_slot, hr.1, hr.2])
      (hf r (List.mem_reverse.mpr hmem))
  | some x =>
    have hxm := List.mem_reverse.mp (List.mem_of_find?_eq_some hf)
    have hxp := List.find?_some hf
    simp [matches_slot] at hxp
    have hsym : Symmetric
        (fun a b : Reservation => ¬(a.date = b.date ∧ a.time_slot = b.time_slot)) := by
      intro a b hab hba
      exact hab ⟨hba.1.symm, hba.2.symm⟩
    by_cases hxr : x = r
    · rw [hxr]
    · exact absurd ⟨hxp.1.trans hr.1.symm, hxp.2.trans hr.2.symm⟩
        (List.Pairwise.forall hsym huniq hxm hmem hxr)

/-- C7: under the per-pair uniqueness invariant,
`get_all_reservations_in_range(d1, d2)` holds exactly the reservations
whose date lies in the inclusive interval `[d1, d2]`, grouped by date then
time slot; a date with zero reservations in the range is absent from the
outer mapping rather than mapped to an empty inner mapping. -/
theorem range_query_exact (db : DB) (d1 d2 dd t : String) (r : Reservation)
    (hinv : UniquePairs db) :
    (lookup2 (get_all_reservations_in_range db d1 d2) dd t = some r ↔
      r ∈ db.rows ∧ r.date = dd ∧ r.time_slot = t ∧ d1 ≤ dd ∧ dd ≤ d2) ∧
    (dget (get_all_reservations_in_range db d1 d2) dd = none ↔
      ∀ r2 ∈ db.rows, ¬(r2.date = dd ∧ d1 ≤ dd ∧ dd ≤ d2)) := by
  have hdef : get_all_reservations_in_range db d1 d2 =
      (db.rows.filter
        (fun r2 => decide (d1 ≤ r2.date) && decide (r2.date ≤ d2))).foldl addRow [] := rfl
  constructor
  · rw [hdef, lookup2_foldl_addRow]
    constructor
    · intro h
      cases hlm : lastMatch dd t
          (db.rows.filter (fun r2 => decide (d1 ≤ r2.date) && decide (r2.date ≤ d2))) with
      | none => rw [hlm] at h; cases h
      | some x =>
        rw [hlm] at h
        have hxr : x = r := by simpa using h
        subst hxr
        rcases lastMatch_mem dd t _ x hlm with ⟨hm, hd, ht⟩
        have hfil := List.mem_filter.mp hm
        have hb := hfil.2
        simp at hb
        refine ⟨hfil.1, hd, ht, ?_, ?_⟩
        · exact String.le_iff_toList_le.mpr (by rw [← hd]; exact hb.1)
        · exact String.le_iff_toList_le.mpr (by rw [← hd]; exact hb.2)
    · rintro ⟨hm, hd, ht, hge, hle⟩
      have hge2 : d1 ≤ r.date := by rw [hd]; exact hge
      have hle2 : r.date ≤ d2 := by rw [hd]; exact hle
      have hmem2 : r ∈ db.rows.filter
          (fun r2 => decide (d1 ≤ r2.date) && decide (r2.date ≤ d2)) := by
        refine List.mem_filter.mpr ⟨hm, ?_⟩
        simp
        exact ⟨String.le_iff_toList_le.mp hge2, String.le_iff_toList_le.mp hle2⟩
      rw [lastMatch_of_mem dd t _ r hmem2 ⟨hd, ht⟩
        (List.Pairwise.sublist (List.filter_sublist _) hinv)]
  · rw [hdef, dget_foldl_addRow_none_iff]
    constructor
    · rintro ⟨hall, -⟩ r2 hr2 hcon
      rcases hcon with ⟨hdr, hge, hle⟩
      have hge2 : d1 ≤ r2.date := by rw [hdr]; exact hge
      have hle2 : r2.date ≤ d2 := by rw [hdr]; exact hle
      refine hall r2 (List.mem_filter.mpr ⟨hr2, ?_⟩) hdr
      simp
      exact ⟨String.le_iff_toList_le.mp hge2, String.le_iff_toList_le.mp hle2⟩
    · intro hnone
      refine ⟨?_, rfl⟩
      intro r2 hr2 hdr
      have hfil := List.mem_filter.mp hr2
      have hb := hfil.2
      simp at hb
      refine hnone r2 hfil.1 ⟨hdr, ?_, ?_⟩
      · exact String.le_iff_toList_le.mpr (by rw [← hdr]; exact hb.1)
      · exact String.le_iff_toList_le.mpr (by rw [← hdr]; exact hb.2)

/-- Closed instance of C7: the protected demo booking is found by a range
query at its date and slot. -/
theorem range_query_exact_witness :
    lookup2 (get_all_reservations_in_range dbProtected "2024-06-01" "2024-06-30")
      "2024-06-10" "09:00" =
      some ⟨1, "2024-06-10", "09:00", "Alice", "787", some (demoHash "secret"), "T0"⟩ := by
  refine ((range_query_exact dbProtected "2024-06-01" "2024-06-30" "2024-06-10" "09:00"
    ⟨1, "2024-06-10", "09:00", "Alice", "787", some (demoHash "secret"), "T0"⟩
    ?_).1).mpr ⟨?_, rfl, rfl, ?_, ?_⟩
  · show List.Pairwise _ dbProtected.rows
    exact List.pairwise_singleton _ _
  · show _ ∈ dbProtected.rows
    exact List.mem_singleton_self _
  · exact String.le_iff_toList_le.mpr (by decide)
  · exact String.le_iff_toList_le.mpr (by decide)

/-! ### C9 -/

/-- The caller-supplied fields of one booking request. -/
structure Req where
  player_name : String
  phone : String
  password : String
  stamp : String

/-- Serial execution of a batch of `create_reservation` calls for one
fixed `(date, time_slot)`: the store performs no read-then-write check, so
each call is a single atomic insert at the persistence layer and any
interleaving of concurrent callers acts on the table as one of these
serial orders. -/
def runCreates (hash : String → String) (d t : String) :
    DB → List Req → DB × List (Bool × String)
  | db, [] => (db, [])
  | db, q :: qs =>
    let out := create_reservation hash db d t q.player_name q.phone q.password q.stamp
    let rest := runCreates hash d t out.1 qs
    (rest.1, (out.2.1, out.2.2) :: rest.2)

theorem runCreates_all_fail (hash : String → String) (d t : String) (db : DB)
    (qs : List Req) (h : occupied db d t = true) :
    (runCreates hash d t db qs).2 = qs.map (fun _ => (false, slotTakenMsg)) ∧
    (runCreates hash d t db qs).1 = db := by
  induction qs with
  | nil => exact ⟨rfl, rfl⟩
  | cons q rest ih =>
    simp only [runCreates, create_of_occupied hash db d t
      q.player_name q.phone q.password q.stamp h, List.map_cons]
    exact ⟨by rw [ih.1], ih.2⟩

/-- C9: when several create calls for the identical `(date, time_slot)`
run against a state where the slot is free, in any serial order (each
insert is atomic at the storage layer, so every interleaving acts as some
serial order, however many callers read the slot as free beforehand),
exactly the first call succeeds and every other call fails with
`SlotTaken`. -/
theorem concurrent_creates_one_winner (hash : String → String) (db : DB)
    (d t : String) (q : Req) (qs : List Req) (hfree : occupied db d t = false) :
    (runCreates hash d t db (q :: qs)).2 =
      (true, createdMsg) :: qs.map (fun _ => (false, slotTakenMsg)) := by
  have hstep := create_of_free hash db d t q.player_name q.phone q.password q.stamp hfree
  have hocc : occupied
      (create_reservation hash db d t q.player_name q.phone q.password q.stamp).1 d t = true := by
    rw [hstep]
    exact (occupied_iff _ d t).mpr ⟨newRow hash db d t q.player_name q.phone q.password q.stamp,
      List.mem_append_right _ (List.mem_singleton_self _), rfl, rfl⟩
  have htail := runCreates_all_fail hash d t _ qs hocc
  simp only [runCreates]
  rw [htail.1, hstep]

/-- Closed instance of C9: two racing bookings for the same slot, one
winner. -/
theorem concurrent_creates_one_winner_witness :
    (runCreates demoHash "2024-06-10" "09:00" init_db
      [⟨"Alice", "", "", "T0"⟩, ⟨"Bob", "", "", "T1"⟩]).2 =
      [(true, createdMsg), (false, slotTakenMsg)] := by
  exact concurrent_creates_one_winner demoHash init_db "2024-06-10" "09:00"
    ⟨"Alice", "", "", "T0"⟩ [⟨"Bob", "", "", "T1"⟩] (by decide)

end TennisApp
